import Mathlib

/-!
Verification of the schedule-notification / auto-block engine of the Perry
repository (a Streamlit productivity dashboard).

The embedding models the engine's data and operations from the Python source:

* `src/enhanced_notifications.py` — `check_enhanced_schedule_notifications`
  (the Notification Evaluator) and `handle_auto_blocking` (the Auto-Block
  Trigger);
* `src/enhanced_schedule_config.py` — `auto_block_for_missed_schedules`;
* `src/config.py` — `check_schedule_conflict`, `add_schedule`,
  `update_schedule` (the Schedule Store);
* `src/pages.py` — the add-schedule form handler, the complete-task handler
  and the notification display sort of `show_schedule_manager`;
* `src/website_blocker.py` — `WebsiteBlocker.block_websites` /
  `unblock_websites` over hosts-file content.

Conventions of the embedding:

* Wall-clock instants are integers counting seconds; a calendar date is the
  integer day number, so Python's `datetime.combine(date, t)` is
  `date * 86400 + t` and `now.date()` is `Int.fdiv now 86400`.
* `time_diff = (schedule_datetime - now).total_seconds() / 60` is a rational.
* Python dict keys read with `d.get(k, False)` are total `Bool` fields
  defaulting to `false` (a missing key and a `False` value are
  indistinguishable to every reader in the source).
* A schedule id `f"schedule_{n}_{ts}"` is modelled as the pair `(n, ts)`;
  the format is injective because `n` is digits-only and `_` separates the
  parts, so the pair and the string determine each other.
* A notification id `f"{kindTag}_{scheduleId}"` is modelled as the pair
  (kind, schedule id); the six tags `auto_block_`, `missed_5min_`,
  `just_missed_`, `10min_`, `5min_`, `start_` begin with six distinct
  characters, so the pair and the string determine each other.
-/

namespace Perry

/-- The six event kinds of `check_enhanced_schedule_notifications`
(`src/enhanced_notifications.py`), i.e. the `type` strings
`auto_block`, `missed_5min`, `just_missed`, `10min_warning`,
`5min_warning`, `start_now`. -/
inductive NotifKind where
  | autoBlock
  | missed5
  | justMissed
  | warn10
  | warn5
  | startNow
deriving DecidableEq

/-- The `type` string of each kind, as written in
`src/enhanced_notifications.py`. -/
def NotifKind.typeTag : NotifKind → String
  | .autoBlock => "auto_block"
  | .missed5 => "missed_5min"
  | .justMissed => "just_missed"
  | .warn10 => "10min_warning"
  | .warn5 => "5min_warning"
  | .startNow => "start_now"

/-- The `severity` string of each kind, as written in
`src/enhanced_notifications.py`. -/
def NotifKind.severityTag : NotifKind → String
  | .autoBlock => "critical"
  | .missed5 => "high"
  | .justMissed => "medium"
  | .warn10 => "info"
  | .warn5 => "warning"
  | .startNow => "urgent"

/-- A schedule id `f"schedule_{n}_{ts}"` (`add_schedule`, `src/config.py`
line 1294): `n` is `len(st.session_state.schedules)` at creation and `ts`
the clock timestamp. -/
structure SchedId where
  n : Nat
  ts : Int
deriving DecidableEq

/-- A notification id `f"{kindTag}_{scheduleId}"`. -/
structure NotifId where
  kind : NotifKind
  sid : SchedId
deriving DecidableEq

/-- A schedule record, as created by `add_schedule` (`src/config.py`) and
mutated by the evaluator / UI handlers.  The boolean flags are read in the
source with `schedule.get(flag, False)`, hence total with default `false`. -/
structure Schedule where
  id : SchedId
  title : String
  descr : String := ""
  date : Int
  start_time : Int
  end_time : Int
  category : String := ""
  priority : String := ""
  completed : Bool := false
  started : Bool := false
  missed_notified : Bool := false
  auto_block_triggered : Bool := false
  auto_blocked : Bool := false
  auto_block_time : Option Int := none
  auto_block_executed : Option Int := none
  created_at : Int := 0
deriving DecidableEq

/-- A notification dict as built in `check_enhanced_schedule_notifications`
(`src/enhanced_notifications.py`).  The `auto_block` key is only present
(and `True`) on `auto_block` notifications; every reader uses
`n.get('auto_block', False)`, hence a total `Bool`. -/
structure Notification where
  id : NotifId
  schedule_id : SchedId
  title : String
  kind : NotifKind
  time : Int
  time_diff : ℚ
  timestamp : Int
  read : Bool := false
  severity : String
  auto_block : Bool := false
deriving DecidableEq

/-- `(datetime.combine(date, start_time) - now).total_seconds()`: the signed
distance to the schedule's start, in seconds (negative when the start has
passed). -/
def timeDiffSec (date start_time now : Int) : Int :=
  date * 86400 + start_time - now

/-- `time_diff = (schedule_datetime - now).total_seconds() / 60` (minutes),
exactly as the source computes it. -/
def timeDiffMin (date start_time now : Int) : ℚ :=
  ((timeDiffSec date start_time now : Int) : ℚ) / 60

/-- The `if/elif` window classification of
`check_enhanced_schedule_notifications` (`src/enhanced_notifications.py`
lines 56–226) stated on `time_diff` in minutes, with the source's literal
thresholds. -/
def classifyMin (td : ℚ) (started : Bool) : Option NotifKind :=
  if td < -10 ∧ started = false then some .autoBlock
  else if -10 < td ∧ td ≤ -5 ∧ started = false then some .missed5
  else if -5 < td ∧ td < 0 ∧ started = false then some .justMissed
  else if 9 ≤ td ∧ td ≤ 11 then some .warn10
  else if 4 ≤ td ∧ td ≤ 6 then some .warn5
  else if -1 ≤ td ∧ td ≤ 1 ∧ started = false then some .startNow
  else none

/-- The same classification on whole seconds: each minute threshold `c` is
scaled to `60 * c` seconds, which is exact because `x ↦ x / 60` is strictly
monotone (`classify_sec_eq_min` below proves the two agree). -/
def classify (tds : Int) (started : Bool) : Option NotifKind :=
  if tds < -600 ∧ started = false then some .autoBlock
  else if -600 < tds ∧ tds ≤ -300 ∧ started = false then some .missed5
  else if -300 < tds ∧ tds < 0 ∧ started = false then some .justMissed
  else if 540 ≤ tds ∧ tds ≤ 660 then some .warn10
  else if 240 ≤ tds ∧ tds ≤ 360 then some .warn5
  else if -60 ≤ tds ∧ tds ≤ 60 ∧ started = false then some .startNow
  else none

/-- The notification dict each branch appends (the `message` f-string is a
function of the fields kept here and is omitted). -/
def mkNotif (k : NotifKind) (s : Schedule) (now : Int) (td : ℚ) : Notification :=
  { id := ⟨k, s.id⟩
    schedule_id := s.id
    title := s.title
    kind := k
    time := s.start_time
    time_diff := td
    timestamp := now
    read := false
    severity := k.severityTag
    auto_block := k = NotifKind.autoBlock }

/-- One iteration of the schedule loop of
`check_enhanced_schedule_notifications` (`src/enhanced_notifications.py`
lines 38–227): skip completed schedules, skip schedules not dated today,
classify by `time_diff`, and — if no notification with the derived id exists
yet — append the notification; the `auto_block` branch additionally sets
`auto_block_triggered` and `auto_block_time` on the schedule.  Desktop-alert
dispatch (`send_schedule_alert`) is fire-and-forget and is omitted. -/
def processSchedule (now today : Int) (s : Schedule) (notifs : List Notification) :
    Schedule × List Notification :=
  if s.completed = true then (s, notifs)
  else if s.date ≠ today then (s, notifs)
  else
    let tds := timeDiffSec s.date s.start_time now
    match classify tds s.started with
    | none => (s, notifs)
    | some k =>
      let nid : NotifId := ⟨k, s.id⟩
      if notifs.any (fun n => n.id = nid) then (s, notifs)
      else
        let s' := if k = NotifKind.autoBlock
          then { s with auto_block_triggered := true, auto_block_time := some now }
          else s
        (s', notifs ++ [mkNotif k s now ((tds : ℚ) / 60)])

/-- The schedule loop of `check_enhanced_schedule_notifications`: schedules
are processed in list order, each seeing the notification list as left by
its predecessors (Python mutates `st.session_state.notifications` in
place). -/
def scanAux (now today : Int) :
    List Schedule → List Notification → List Schedule × List Notification
  | [], notifs => ([], notifs)
  | s :: rest, notifs =>
    let p := processSchedule now today s notifs
    let r := scanAux now today rest p.2
    (p.1 :: r.1, r.2)

/-- The session state the engine operates on: `st.session_state.schedules`
and `st.session_state.notifications`. -/
structure EvalState where
  schedules : List Schedule
  notifications : List Notification
deriving DecidableEq

/-- `check_enhanced_schedule_notifications` (`src/enhanced_notifications.py`):
`today = now.date()`, then the schedule loop.  The 30-second re-check
throttle (lines 24–32) only decides whether the loop runs at all and the
function's return value (the newly created notifications) is the suffix the
loop appends; both are omitted from the state transformer. -/
def check_enhanced_schedule_notifications (st : EvalState) (now : Int) : EvalState :=
  let today := Int.fdiv now 86400
  let r := scanAux now today st.schedules st.notifications
  ⟨r.1, r.2⟩

/-- The event kind (if any) a schedule falls into at instant `now`: the
completed / not-today guards followed by the window classification. -/
def branchKind (now today : Int) (s : Schedule) : Option NotifKind :=
  if s.completed = true then none
  else if s.date ≠ today then none
  else classify (timeDiffSec s.date s.start_time now) s.started

/-- The schedule update of the `auto_block` branch. -/
def updAB (now : Int) (s : Schedule) : Schedule :=
  { s with auto_block_triggered := true, auto_block_time := some now }

/-- How many notifications in the list carry a given id. -/
def countN (l : List Notification) (nid : NotifId) : Nat :=
  l.countP (fun n => n.id = nid)

/-- A schedule is settled w.r.t. a notification list when the notification
its current branch would insert is already present, so the dedup check
blocks any further insertion. -/
def settled (now today : Int) (s : Schedule) (N : List Notification) : Prop :=
  ∀ k, branchKind now today s = some k →
    N.any (fun n => n.id = (⟨k, s.id⟩ : NotifId)) = true

/-- `check_schedule_conflict` (`src/config.py` lines 1276–1290): collect the
existing schedules on the same date whose `[start_time, end_time)` interval
overlaps the candidate one.  The guard `if exclude_id and
schedule.get('id') == exclude_id: continue` skips a schedule exactly when
`exclude_id` is a (truthy) id equal to the schedule's, i.e. when
`exclude_id = some s.id`. -/
def check_schedule_conflict : List Schedule → Int → Int → Int → Option SchedId →
    List Schedule
  | [], _, _, _, _ => []
  | s :: rest, new_start, new_end, new_date, exclude_id =>
    if exclude_id = some s.id then
      check_schedule_conflict rest new_start new_end new_date exclude_id
    else if s.date = new_date ∧ new_start < s.end_time ∧ new_end > s.start_time then
      s :: check_schedule_conflict rest new_start new_end new_date exclude_id
    else
      check_schedule_conflict rest new_start new_end new_date exclude_id

/-- `add_schedule` (`src/config.py` lines 1292–1314): append a fresh record
with `completed=False`, `started=False`, `missed_notified=False` (and no
auto-block keys, i.e. all flags read as false) and return its id
`f"schedule_{len(schedules)}_{now.timestamp()}"`.  File persistence calls
are omitted. -/
def add_schedule (schedules : List Schedule) (nowTs : Int) (title descr : String)
    (date start_time end_time : Int) (category priority : String) :
    List Schedule × SchedId :=
  let schedule_id : SchedId := ⟨schedules.length, nowTs⟩
  (schedules ++ [{ id := schedule_id, title := title, descr := descr, date := date,
                   start_time := start_time, end_time := end_time, category := category,
                   priority := priority, completed := false, created_at := nowTs,
                   started := false, missed_notified := false }], schedule_id)

/-- Outcome of the add-schedule form handler. -/
inductive AddOutcome where
  | emptyTitle
  | badTimes
  | conflict (cs : List Schedule)
  | added (sid : SchedId)
deriving DecidableEq

/-- The add-schedule form submission handler of `show_schedule_manager`
(`src/pages.py` lines 1408–1434): reject an empty title, reject
`end_time <= start_time`, reject on any conflict from
`check_schedule_conflict` (leaving the store untouched), otherwise call
`add_schedule`. -/
def submit_add_schedule (schedules : List Schedule) (nowTs : Int) (title descr : String)
    (date start_time end_time : Int) (category priority : String) :
    List Schedule × AddOutcome :=
  if title = "" then (schedules, AddOutcome.emptyTitle)
  else if end_time ≤ start_time then (schedules, AddOutcome.badTimes)
  else
    let conflicts := check_schedule_conflict schedules start_time end_time date none
    if conflicts ≠ [] then (schedules, AddOutcome.conflict conflicts)
    else
      let r := add_schedule schedules nowTs title descr date start_time end_time
        category priority
      (r.1, AddOutcome.added r.2)

/-- Fixture: a started schedule (10 minutes before start at `now = 2400`). -/
def schedStarted : Schedule :=
  { id := ⟨0, 0⟩, title := "S", date := 0, start_time := 3000, end_time := 6600,
    started := true }

/-- Fixture: the `10min_warning` notification the evaluator emits for
`schedStarted` at `now = 2400`. -/
def warnNotif : Notification :=
  mkNotif NotifKind.warn10 schedStarted 2400
    (((timeDiffSec schedStarted.date schedStarted.start_time 2400 : Int) : ℚ) / 60)

/-- Fixture: existing schedule `A = [10:30, 11:30)` on day 0 (in seconds of
day, `[37800, 41400)`). -/
def schedA : Schedule :=
  { id := ⟨0, 1⟩, title := "A", date := 0, start_time := 37800, end_time := 41400 }

/-- Fixture: existing schedule `[3000, 6600)` on day 0. -/
def schedB : Schedule :=
  { id := ⟨0, 5⟩, title := "A", date := 0, start_time := 3000, end_time := 6600 }

/-- Fixture: the record the add flow appends for title "B", interval
`[6600, 7200)` on day 0 at clock timestamp 99. -/
def schedBnew : Schedule :=
  { id := ⟨1, 99⟩, title := "B", descr := "", date := 0, start_time := 6600,
    end_time := 7200, category := "Work", priority := "Medium", completed := false,
    started := false, missed_notified := false, auto_block_triggered := false,
    auto_blocked := false, auto_block_time := none, created_at := 99 }

/-- `handle_auto_blocking` (`src/enhanced_notifications.py` lines 231–287).
The blocking collaborator is abstracted by two booleans: `admin`
(`blocker._check_admin_privileges()`) and `blockSuccess`
(`blocker.block_websites(...)['success']`); desktop alerts and the
session-level `blocking_active` flag are outside the schedule list modelled
here.  Returns the updated schedule list and the titles blocked this
pass. -/
def handle_auto_blocking (admin blockSuccess : Bool) (now : Int) :
    List Schedule → List Schedule × List String
  | [] => ([], [])
  | s :: rest =>
    let r := handle_auto_blocking admin blockSuccess now rest
    if s.auto_block_triggered = true ∧ s.auto_blocked = false then
      if s.started = true then
        ({ s with auto_block_triggered := false } :: r.1, r.2)
      else if admin = false then
        ({ s with auto_block_triggered := false } :: r.1, r.2)
      else if blockSuccess = true then
        ({ s with auto_blocked := true, auto_block_executed := some now } :: r.1,
          s.title :: r.2)
      else
        ({ s with auto_block_triggered := false } :: r.1, r.2)
    else
      (s :: r.1, r.2)

/-- `auto_block_for_missed_schedules` (`src/enhanced_schedule_config.py`
lines 247–298), same abstraction of the collaborator.  On a permission
failure it writes `auto_blocked = False` and leaves `auto_block_triggered`
set; on a blocking failure it changes nothing. -/
def auto_block_for_missed_schedules (admin blockSuccess : Bool) :
    List Schedule → List Schedule × List String
  | [] => ([], [])
  | s :: rest =>
    let r := auto_block_for_missed_schedules admin blockSuccess rest
    if s.auto_block_triggered = true ∧ s.auto_blocked = false then
      if admin = false then
        ({ s with auto_blocked := false } :: r.1, r.2)
      else if blockSuccess = true then
        ({ s with auto_blocked := true } :: r.1, s.title :: r.2)
      else
        (s :: r.1, r.2)
    else
      (s :: r.1, r.2)

/-- Fixture: a schedule pending auto-block (`auto_block_triggered = true`,
`auto_blocked = false`, not started). -/
def schedC : Schedule :=
  { id := ⟨2, 0⟩, title := "C", date := 0, start_time := 3000, end_time := 6600,
    auto_block_triggered := true }

/-- `update_schedule(schedule_id, completed=True)` (`src/config.py` lines
1316–1323): update the first record with the given id. -/
def update_schedule_completed : List Schedule → SchedId → List Schedule
  | [], _ => []
  | s :: rest, sid =>
    if s.id = sid then { s with completed := true } :: rest
    else s :: update_schedule_completed rest sid

/-- The clear-flags pass of the complete handler (`src/pages.py` lines
1525–1529): for every schedule with `auto_block_triggered` set, clear both
`auto_block_triggered` and `auto_blocked`. -/
def clearAutoBlockFlags (ss : List Schedule) : List Schedule :=
  ss.map (fun t => if t.auto_block_triggered = true then
    { t with auto_block_triggered := false, auto_blocked := false } else t)

/-- The "✓ Complete" button handler of `show_schedule_manager`
(`src/pages.py` lines 1512–1539): mark the schedule completed; then, only
if that schedule has `auto_blocked` set AND the blocker reports blocking
active AND the unblock call succeeds, run the clear-flags pass.  The
blocker is abstracted by `blockerActive` (`blocker.is_blocking_active()`)
and `unblockSuccess` (`blocker.unblock_websites()['success']`); the clicked
dict is the first record with the clicked id. -/
def complete_task (blockerActive unblockSuccess : Bool) (ss : List Schedule)
    (sid : SchedId) : List Schedule :=
  let ss1 := update_schedule_completed ss sid
  match ss1.find? (fun t => t.id = sid) with
  | none => ss1
  | some s =>
    if s.auto_blocked = true ∧ blockerActive = true then
      if unblockSuccess = true then clearAutoBlockFlags ss1
      else ss1
    else ss1

/-- Fixture: a schedule that was auto-blocked but whose
`auto_block_triggered` flag was already cleared (as the "▶️ Start" button
does without clearing `auto_blocked`). -/
def schedD : Schedule :=
  { id := ⟨3, 0⟩, title := "D", date := 0, start_time := 3000, end_time := 6600,
    auto_blocked := true }

/-- Fixture: an auto-blocked schedule that still has its trigger flag set. -/
def schedE : Schedule :=
  { id := ⟨4, 0⟩, title := "E", date := 0, start_time := 3000, end_time := 6600,
    auto_block_triggered := true, auto_blocked := true }

/-- Fixture: `schedE` marked completed. -/
def schedEdone : Schedule := { schedE with completed := true }

/-- A notification as the display sort of `show_schedule_manager`
(`src/pages.py` lines 1274–1280) sees it: the sort key reads only
`n.get('type', 'upcoming')`; the timestamp orders the list as appended. -/
structure PNotif where
  type : String
  timestamp : Int
deriving DecidableEq

/-- `type_priority = {'critical': 0, 'warning': 1, 'late': 2, 'start': 3,
'soon': 4, 'upcoming': 5}` with `.get(..., 99)` (`src/pages.py` line
1279). -/
def type_priority (t : String) : Nat :=
  if t = "critical" then 0
  else if t = "warning" then 1
  else if t = "late" then 2
  else if t = "start" then 3
  else if t = "soon" then 4
  else if t = "upcoming" then 5
  else 99

/-- Python's `sorted(unread_notifs, key=...)` is a stable sort; a stable
sort's output is uniquely determined by the key, so this stable insertion
sort computes it: each element is inserted before the first element of
strictly-or-equally greater key only when its own key is strictly smaller
or it came earlier, i.e. it goes before the first element whose key is
`≥` its own. -/
def insertByPriority (n : PNotif) : List PNotif → List PNotif
  | [] => [n]
  | m :: ms =>
    if type_priority n.type ≤ type_priority m.type then n :: m :: ms
    else m :: insertByPriority n ms

/-- The display sort `sorted(unread_notifs, key=lambda n:
type_priority.get(n.get('type', 'upcoming'), 99))`. -/
def sortNotifs : List PNotif → List PNotif
  | [] => []
  | n :: ns => insertByPriority n (sortNotifs ns)

/-- Modelled from the spec's words (§4.4): display tiers
`critical > warning/late > start > soon > upcoming` — `warning` and `late`
share one tier — with ties inside a tier broken by timestamp ascending.
Named `specTier` to be compared with the source's `type_priority`. -/
def specTier (t : String) : Nat :=
  if t = "critical" then 0
  else if t = "warning" ∨ t = "late" then 1
  else if t = "start" then 2
  else if t = "soon" then 3
  else if t = "upcoming" then 4
  else 99

/-- A list ordered as the claim states: by spec tier, ties broken by
timestamp ascending. -/
def specOrdered (l : List PNotif) : Prop :=
  l.Pairwise (fun a b => specTier a.type < specTier b.type ∨
    (specTier a.type = specTier b.type ∧ a.timestamp ≤ b.timestamp))

/-- The code's effective ordering relation: strictly increasing
`type_priority`, with ties (same priority, i.e. same `type`-class) left in
input order — timestamp ascending when the input was. -/
def codeOrd (a b : PNotif) : Prop :=
  type_priority a.type < type_priority b.type ∨
    (type_priority a.type = type_priority b.type ∧ a.timestamp ≤ b.timestamp)

/-! The evaluator loop reads `schedule['date']`, `schedule['start_time']`,
`schedule['id']` (and `schedule['title']` when emitting) with plain
indexing — a record missing one of these raises `KeyError`; only
`completed`/`started`/the flags are read through `.get(..., False)`.  The
raw model below makes the indexed keys optional and propagates the
error. -/

/-- A schedule dict as stored: the keys the evaluator indexes directly are
optional; `title` is only read when well-formed records emit and is kept
total here (the claim's examples are missing `date`, `id`, `start_time`). -/
structure RawSchedule where
  id : Option SchedId
  title : String
  date : Option Int
  start_time : Option Int
  completed : Option Bool := none
  started : Option Bool := none
  auto_block_triggered : Option Bool := none
  auto_block_time : Option Int := none
deriving DecidableEq

/-- `mkNotif` on the extracted fields. -/
def mkNotifF (k : NotifKind) (sid : SchedId) (title : String) (startT : Int)
    (now : Int) (td : ℚ) : Notification :=
  { id := ⟨k, sid⟩
    schedule_id := sid
    title := title
    kind := k
    time := startT
    time_diff := td
    timestamp := now
    read := false
    severity := k.severityTag
    auto_block := k = NotifKind.autoBlock }

/-- One iteration of the evaluator loop over a raw dict, with the source's
key-access order: `completed` (`.get`), `date` (indexed), `start_time`
(indexed, in `datetime.combine`), `id` (indexed), `started` (`.get`), then
the windows. -/
def processRawSchedule (now today : Int) (r : RawSchedule) (notifs : List Notification) :
    Except String (RawSchedule × List Notification) :=
  if r.completed.getD false = true then .ok (r, notifs)
  else
    match r.date with
    | none => .error "KeyError: date"
    | some d =>
      if d ≠ today then .ok (r, notifs)
      else
        match r.start_time with
        | none => .error "KeyError: start_time"
        | some stt =>
          let tds := timeDiffSec d stt now
          match r.id with
          | none => .error "KeyError: id"
          | some sid =>
            match classify tds (r.started.getD false) with
            | none => .ok (r, notifs)
            | some k =>
              if notifs.any (fun n => n.id = (⟨k, sid⟩ : NotifId)) then .ok (r, notifs)
              else
                let r' := if k = NotifKind.autoBlock
                  then { r with auto_block_triggered := some true,
                                auto_block_time := some now }
                  else r
                .ok (r', notifs ++ [mkNotifF k sid r.title stt now ((tds : ℚ) / 60)])

/-- The evaluator loop over raw dicts: the first `KeyError` aborts the
whole pass (there is no try/except around the loop body in
`check_enhanced_schedule_notifications`, and
`BackgroundNotificationService.check_and_notify` likewise lets it
propagate to the `run()` loop). -/
def check_notifications_raw (now today : Int) :
    List RawSchedule → List Notification →
      Except String (List RawSchedule × List Notification)
  | [], notifs => .ok ([], notifs)
  | r :: rest, notifs =>
    match processRawSchedule now today r notifs with
    | .error e => .error e
    | .ok p =>
      match check_notifications_raw now today rest p.2 with
      | .error e => .error e
      | .ok q => .ok (p.1 :: q.1, q.2)

/-- The raw dict of a well-formed schedule record. -/
def Schedule.toRaw (s : Schedule) : RawSchedule :=
  { id := some s.id, title := s.title, date := some s.date,
    start_time := some s.start_time, completed := some s.completed,
    started := some s.started,
    auto_block_triggered := some s.auto_block_triggered,
    auto_block_time := s.auto_block_time }

/-- Fixture: a malformed record — no `date` key. -/
def rawBad : RawSchedule :=
  { id := some ⟨9, 9⟩, title := "Bad", date := none, start_time := some 3000 }

/-- Fixture: a well-formed record in the auto-block window at `now = 3601`
of day 0. -/
def rawGood : RawSchedule :=
  { id := some ⟨0, 0⟩, title := "Study", date := some 0, start_time := some 3000 }

/-! `src/website_blocker.py`: the hosts file is raw text (a `List Char`
here); `_read_hosts_file` is Python's `readlines()` (split after every
newline, keeping it), `_write_hosts_file` is `writelines` (plain
concatenation).  Admin checks are a boolean parameter; file I/O always
succeeds in the model, matching C10's premise. -/

/-- `readlines` worker: `acc` holds the current line's characters in
reverse; a trailing segment without a newline still forms a line. -/
def splitLinesAux : List Char → List Char → List (List Char)
  | acc, [] => if acc = [] then [] else [acc.reverse]
  | acc, c :: cs =>
    if c = '\n' then (acc.reverse ++ ['\n']) :: splitLinesAux [] cs
    else splitLinesAux (c :: acc) cs

/-- Python's `f.readlines()` on raw content. -/
def splitLines (cs : List Char) : List (List Char) :=
  splitLinesAux [] cs

/-- Python's substring test `pat in l` on character lists. -/
def containsSub (pat : List Char) : List Char → Bool
  | [] => pat.isEmpty
  | c :: cs => pat.isPrefixOf (c :: cs) || containsSub pat cs

/-- `self.marker_start = '# START FOCUS MODE BLOCKING'`. -/
def marker_start : List Char := "# START FOCUS MODE BLOCKING".toList

/-- `self.marker_end = '# END FOCUS MODE BLOCKING'`. -/
def marker_end : List Char := "# END FOCUS MODE BLOCKING".toList

/-- `'# Added by Focus Timer on '`, the fixed part of the comment line. -/
def headerPfx : List Char := "# Added by Focus Timer on ".toList

/-- `self.redirect_ip + ' '`, the fixed part of each blocking entry. -/
def ipPfx : List Char := "127.0.0.1 ".toList

/-- One blocking entry line `f'{self.redirect_ip} {site}\n'`. -/
def entryLine (site : List Char) : List Char := ipPfx ++ site ++ ['\n']

/-- The timestamp comment line `f'# Added by Focus Timer on {ts}\n'`. -/
def headerLine (ts : List Char) : List Char := headerPfx ++ ts ++ ['\n']

/-- The `blocking_entries` list built by `block_websites` (lines 152–161):
`f'\n{marker_start}\n'`, the timestamp comment, one `127.0.0.1 site` line
per site, and the end marker — note the leading newline embedded in the
first element. -/
def blockingEntries (ts : List Char) (sites : List (List Char)) : List (List Char) :=
  ('\n' :: marker_start ++ ['\n']) ::
    headerLine ts ::
    (sites.map entryLine ++ [marker_end ++ ['\n']])

/-- `is_blocking_active`: `marker_start in ''.join(lines)`. -/
def is_blocking_active (hosts : List Char) : Bool :=
  containsSub marker_start ((splitLines hosts).flatten)

/-- `block_websites` (lines 109–182): check admin, re-read, skip when
already active, else append the blocking entries and write.  The returned
boolean is the result's `success` field. -/
def block_websites (admin : Bool) (ts : List Char) (sites : List (List Char))
    (hosts : List Char) : Bool × List Char :=
  if admin = false then (false, hosts)
  else if is_blocking_active hosts = true then (true, hosts)
  else (true, (splitLines hosts ++ blockingEntries ts sites).flatten)

/-- The marker-removal loop of `unblock_websites` (lines 209–221): `skip`
is flipped on by a line containing the start marker, off by one containing
the end marker (both marker lines are dropped), and lines are kept only
while `skip` is off. -/
def removeBlock : Bool → List (List Char) → List (List Char)
  | _, [] => []
  | skip, line :: rest =>
    if containsSub marker_start line = true then removeBlock true rest
    else if containsSub marker_end line = true then removeBlock false rest
    else if skip = true then removeBlock skip rest
    else line :: removeBlock skip rest

/-- `unblock_websites` (lines 184–236): check admin, read lines, drop the
marker section, write back. -/
def unblock_websites (admin : Bool) (hosts : List Char) : Bool × List Char :=
  if admin = false then (false, hosts)
  else (true, (removeBlock false (splitLines hosts)).flatten)

/-- Fixture: a small marker-free hosts file. -/
def hostsFix : List Char := "127.0.0.1 localhost\n".toList

/-- Fixture: a timestamp string. -/
def tsFix : List Char := "2024".toList

/-- Fixture: a two-site blocking list. -/
def sitesFix : List (List Char) := ["youtube.com".toList, "www.youtube.com".toList]

/-- The seconds-based classification agrees with the source's minutes-based
one at every instant. -/
theorem classify_sec_eq_min (a : Int) (b : Bool) :
    classify a b = classifyMin ((a : ℚ) / 60) b := by
  have h60 : (0 : ℚ) < 60 := by norm_num
  have klt : ∀ c : Int, ((a : ℚ) / 60 < (c : ℚ)) ↔ (a < c * 60) := by
    intro c; rw [div_lt_iff₀ h60]; exact_mod_cast Iff.rfl
  have kle : ∀ c : Int, ((a : ℚ) / 60 ≤ (c : ℚ)) ↔ (a ≤ c * 60) := by
    intro c; rw [div_le_iff₀ h60]; exact_mod_cast Iff.rfl
  have kgt : ∀ c : Int, ((c : ℚ) < (a : ℚ) / 60) ↔ (c * 60 < a) := by
    intro c; rw [lt_div_iff₀ h60]; exact_mod_cast Iff.rfl
  have kge : ∀ c : Int, ((c : ℚ) ≤ (a : ℚ) / 60) ↔ (c * 60 ≤ a) := by
    intro c; rw [le_div_iff₀ h60]; exact_mod_cast Iff.rfl
  have e1 := klt (-10); have e2 := kgt (-10); have e3 := kle (-5); have e4 := kgt (-5)
  have e5 := klt 0; have e6 := kge 9; have e7 := kle 11; have e8 := kge 4
  have e9 := kle 6; have e10 := kge (-1); have e11 := kle 1
  push_cast at e1 e2 e3 e4 e5 e6 e7 e8 e9 e10 e11
  simp only [classify, classifyMin, e1, e2, e3, e4, e5, e6, e7, e8, e9, e10, e11]

theorem processSchedule_eq (now today : Int) (s : Schedule) (notifs : List Notification) :
    processSchedule now today s notifs =
      match branchKind now today s with
      | none => (s, notifs)
      | some k =>
        if notifs.any (fun n => n.id = (⟨k, s.id⟩ : NotifId)) then (s, notifs)
        else ((if k = NotifKind.autoBlock then updAB now s else s),
          notifs ++ [mkNotif k s now ((timeDiffSec s.date s.start_time now : ℚ) / 60)]) := by
  unfold processSchedule branchKind updAB
  by_cases h1 : s.completed = true
  · simp [h1]
  · by_cases h2 : s.date ≠ today
    · simp [h1, h2]
    · simp [h1, h2]

theorem ps_none (now today : Int) (s : Schedule) (notifs : List Notification)
    (h : branchKind now today s = none) :
    processSchedule now today s notifs = (s, notifs) := by
  rw [processSchedule_eq, h]

theorem ps_dup (now today : Int) (s : Schedule) (notifs : List Notification) (k : NotifKind)
    (h : branchKind now today s = some k)
    (hd : notifs.any (fun n => n.id = (⟨k, s.id⟩ : NotifId)) = true) :
    processSchedule now today s notifs = (s, notifs) := by
  rw [processSchedule_eq, h]
  simp [hd]

theorem ps_add (now today : Int) (s : Schedule) (notifs : List Notification) (k : NotifKind)
    (h : branchKind now today s = some k)
    (hd : notifs.any (fun n => n.id = (⟨k, s.id⟩ : NotifId)) = false) :
    processSchedule now today s notifs =
      ((if k = NotifKind.autoBlock then updAB now s else s),
        notifs ++ [mkNotif k s now ((timeDiffSec s.date s.start_time now : ℚ) / 60)]) := by
  rw [processSchedule_eq, h]
  simp [hd]

theorem ps_sched_cases (now today : Int) (s : Schedule) (notifs : List Notification) :
    (processSchedule now today s notifs).1 = s ∨
      (branchKind now today s = some NotifKind.autoBlock ∧
        (processSchedule now today s notifs).1 = updAB now s) := by
  rw [processSchedule_eq]
  cases h : branchKind now today s with
  | none => exact Or.inl rfl
  | some k =>
    simp only
    by_cases hd : notifs.any (fun n => n.id = (⟨k, s.id⟩ : NotifId)) = true
    · simp [hd]
    · rw [eq_false_of_ne_true hd]
      by_cases hk : k = NotifKind.autoBlock
      · subst hk; simp
      · simp [hk]

theorem ps_id (now today : Int) (s : Schedule) (notifs : List Notification) :
    ((processSchedule now today s notifs).1).id = s.id := by
  rcases ps_sched_cases now today s notifs with h | ⟨_, h⟩
  · rw [h]
  · rw [h]; rfl

theorem updAB_fields (now : Int) (s : Schedule) :
    (updAB now s).completed = s.completed ∧ (updAB now s).date = s.date ∧
      (updAB now s).start_time = s.start_time ∧ (updAB now s).started = s.started ∧
      (updAB now s).id = s.id ∧ (updAB now s).title = s.title := by
  exact ⟨rfl, rfl, rfl, rfl, rfl, rfl⟩

/-- The evaluator's only schedule mutation (the `auto_block` flag flip) does
not change the fields the classification reads, so a schedule's branch is
stable across evaluator passes. -/
theorem ps_branch_stable (now today now' today' : Int) (s : Schedule)
    (notifs : List Notification) :
    branchKind now' today' (processSchedule now today s notifs).1 =
      branchKind now' today' s := by
  rcases ps_sched_cases now today s notifs with h | ⟨_, h⟩
  · rw [h]
  · rw [h]; rfl

theorem ps_notifs_append (now today : Int) (s : Schedule) (notifs : List Notification) :
    ∃ t, (processSchedule now today s notifs).2 = notifs ++ t ∧
      ∀ n ∈ t, ∃ k, branchKind now today s = some k ∧
        n = mkNotif k s now ((timeDiffSec s.date s.start_time now : ℚ) / 60) := by
  rw [processSchedule_eq]
  cases h : branchKind now today s with
  | none => exact ⟨[], by simp⟩
  | some k =>
    simp only
    by_cases hd : notifs.any (fun n => n.id = (⟨k, s.id⟩ : NotifId)) = true
    · exact ⟨[], by simp [hd]⟩
    · rw [eq_false_of_ne_true hd]
      refine ⟨[mkNotif k s now ((timeDiffSec s.date s.start_time now : ℚ) / 60)], rfl, ?_⟩
      intro n hn
      rw [List.mem_singleton] at hn
      exact ⟨k, rfl, hn⟩

theorem countN_append (l₁ l₂ : List Notification) (nid : NotifId) :
    countN (l₁ ++ l₂) nid = countN l₁ nid + countN l₂ nid :=
  List.countP_append _ _ _

theorem countN_singleton (n : Notification) (nid : NotifId) :
    countN [n] nid = if n.id = nid then 1 else 0 := by
  by_cases h : n.id = nid <;> simp [countN, h]

theorem any_id_false_iff (l : List Notification) (nid : NotifId) :
    (l.any (fun n => n.id = nid) = false) ↔ countN l nid = 0 := by
  simp [countN, List.any_eq_false, List.countP_eq_zero]

theorem mkNotif_id (k : NotifKind) (s : Schedule) (now : Int) (td : ℚ) :
    (mkNotif k s now td).id = ⟨k, s.id⟩ := rfl

/-- One evaluator step either leaves the count of a notification id alone,
or raises it from 0 to 1 (the dedup check guards every insertion). -/
theorem ps_count (now today : Int) (s : Schedule) (notifs : List Notification) (nid : NotifId) :
    countN (processSchedule now today s notifs).2 nid = countN notifs nid ∨
      (countN notifs nid = 0 ∧ countN (processSchedule now today s notifs).2 nid = 1) := by
  rw [processSchedule_eq]
  cases hb : branchKind now today s with
  | none => exact Or.inl rfl
  | some k =>
    by_cases hd : notifs.any (fun n => n.id = (⟨k, s.id⟩ : NotifId)) = true
    · simp [hd]
    · have hd' := eq_false_of_ne_true hd
      simp only [hd', Bool.false_eq_true, if_false]
      rw [countN_append, countN_singleton, mkNotif_id]
      by_cases he : (⟨k, s.id⟩ : NotifId) = nid
      · have h0 : countN notifs nid = 0 := he ▸ (any_id_false_iff notifs _).mp hd'
        rw [h0, if_pos he]
        exact Or.inr ⟨rfl, rfl⟩
      · rw [if_neg he]
        exact Or.inl rfl

/-- A step of a schedule whose derived ids all differ from `nid` keeps the
count of `nid` unchanged. -/
theorem ps_count_ne (now today : Int) (s : Schedule) (notifs : List Notification) (nid : NotifId)
    (h : ∀ k, branchKind now today s = some k → (⟨k, s.id⟩ : NotifId) ≠ nid) :
    countN (processSchedule now today s notifs).2 nid = countN notifs nid := by
  rw [processSchedule_eq]
  cases hb : branchKind now today s with
  | none => rfl
  | some k =>
    by_cases hd : notifs.any (fun n => n.id = (⟨k, s.id⟩ : NotifId)) = true
    · simp only [hd, if_true]
    · have hd' := eq_false_of_ne_true hd
      simp only [hd', Bool.false_eq_true, if_false]
      rw [countN_append, countN_singleton, mkNotif_id, if_neg (h k hb)]
      omega

/-! ### Scan lemmas -/

theorem scan_notifs_append (now today : Int) (ss : List Schedule) (notifs : List Notification) :
    ∃ t, (scanAux now today ss notifs).2 = notifs ++ t := by
  induction ss generalizing notifs with
  | nil => exact ⟨[], (List.append_nil notifs).symm⟩
  | cons s rest ih =>
    obtain ⟨t₁, ht₁, _⟩ := ps_notifs_append now today s notifs
    obtain ⟨t₂, ht₂⟩ := ih (processSchedule now today s notifs).2
    refine ⟨t₁ ++ t₂, ?_⟩
    show (scanAux now today rest (processSchedule now today s notifs).2).2 = _
    rw [ht₂, ht₁, List.append_assoc]

theorem scan_ids (now today : Int) (ss : List Schedule) (notifs : List Notification) :
    ((scanAux now today ss notifs).1).map Schedule.id = ss.map Schedule.id := by
  induction ss generalizing notifs with
  | nil => rfl
  | cons s rest ih =>
    simp only [scanAux, List.map_cons]
    rw [ps_id, ih]

theorem scan_sched_cases (now today : Int) (ss : List Schedule) (notifs : List Notification) :
    ∀ t' ∈ (scanAux now today ss notifs).1, ∃ s ∈ ss, t' = s ∨
      (branchKind now today s = some NotifKind.autoBlock ∧ t' = updAB now s) := by
  induction ss generalizing notifs with
  | nil => intro t' h; cases h
  | cons s rest ih =>
    intro t' ht'
    simp only [scanAux, List.mem_cons] at ht'
    rcases ht' with h | h
    · refine ⟨s, List.mem_cons_self s rest, ?_⟩
      rcases ps_sched_cases now today s notifs with hc | ⟨hb, hc⟩
      · exact Or.inl (h.trans hc)
      · exact Or.inr ⟨hb, h.trans hc⟩
    · obtain ⟨u, hu, hcase⟩ := ih (processSchedule now today s notifs).2 t' h
      exact ⟨u, List.mem_cons_of_mem s hu, hcase⟩

theorem scan_new_mem (now today : Int) (ss : List Schedule) (notifs : List Notification) :
    ∀ n ∈ (scanAux now today ss notifs).2, n ∈ notifs ∨ ∃ s ∈ ss, ∃ k,
      branchKind now today s = some k ∧
        n = mkNotif k s now ((timeDiffSec s.date s.start_time now : ℚ) / 60) := by
  induction ss generalizing notifs with
  | nil => intro n hn; exact Or.inl hn
  | cons s rest ih =>
    intro n hn
    simp only [scanAux] at hn
    rcases ih (processSchedule now today s notifs).2 n hn with h | ⟨u, hu, k, hb, he⟩
    · obtain ⟨t, ht, hchar⟩ := ps_notifs_append now today s notifs
      rw [ht, List.mem_append] at h
      rcases h with h | h
      · exact Or.inl h
      · obtain ⟨k, hb, he⟩ := hchar n h
        exact Or.inr ⟨s, List.mem_cons_self s rest, k, hb, he⟩
    · exact Or.inr ⟨u, List.mem_cons_of_mem s hu, k, hb, he⟩

theorem scan_count (now today : Int) (ss : List Schedule) (notifs : List Notification)
    (nid : NotifId) :
    countN (scanAux now today ss notifs).2 nid = countN notifs nid ∨
      (countN notifs nid = 0 ∧ countN (scanAux now today ss notifs).2 nid ≤ 1) := by
  induction ss generalizing notifs with
  | nil => exact Or.inl rfl
  | cons s rest ih =>
    simp only [scanAux]
    rcases ps_count now today s notifs nid with h | ⟨h0, h1⟩
    · rcases ih (processSchedule now today s notifs).2 with h' | ⟨h0', h1'⟩
      · exact Or.inl (h'.trans h)
      · exact Or.inr ⟨h ▸ h0', h1'⟩
    · rcases ih (processSchedule now today s notifs).2 with h' | ⟨h0', h1'⟩
      · exact Or.inr ⟨h0, by omega⟩
      · omega

theorem scan_count_zero (now today : Int) (ss : List Schedule) (notifs : List Notification)
    (nid : NotifId) (h0 : countN notifs nid = 0)
    (hno : ∀ s ∈ ss, ∀ k, branchKind now today s = some k → (⟨k, s.id⟩ : NotifId) ≠ nid) :
    countN (scanAux now today ss notifs).2 nid = 0 := by
  induction ss generalizing notifs with
  | nil => exact h0
  | cons s rest ih =>
    simp only [scanAux]
    have hstep := ps_count_ne now today s notifs nid
      (hno s (List.mem_cons_self s rest))
    exact ih _ (hstep.trans h0) (fun u hu => hno u (List.mem_cons_of_mem s hu))

/-- If some schedule of the list falls into kind `k` and no notification
with the derived id exists yet, the scan leaves exactly one such
notification — never two. -/
theorem scan_count_eq_one (now today : Int) (ss : List Schedule) (notifs : List Notification)
    (s : Schedule) (k : NotifKind) (hs : s ∈ ss)
    (hb : branchKind now today s = some k)
    (h0 : countN notifs (⟨k, s.id⟩ : NotifId) = 0) :
    countN (scanAux now today ss notifs).2 (⟨k, s.id⟩ : NotifId) = 1 := by
  induction ss generalizing notifs with
  | nil => cases hs
  | cons t rest ih =>
    simp only [scanAux]
    rcases List.mem_cons.mp hs with heq | hmem
    · subst heq
      have hd : notifs.any (fun n => n.id = (⟨k, s.id⟩ : NotifId)) = false :=
        (any_id_false_iff notifs _).mpr h0
      rw [ps_add now today s notifs k hb hd]
      have h1 : countN (notifs ++ [mkNotif k s now
          ((timeDiffSec s.date s.start_time now : ℚ) / 60)]) (⟨k, s.id⟩ : NotifId) = 1 := by
        rw [countN_append, countN_singleton, mkNotif_id, if_pos rfl, h0]
      rcases scan_count now today rest (notifs ++ [mkNotif k s now
          ((timeDiffSec s.date s.start_time now : ℚ) / 60)]) (⟨k, s.id⟩ : NotifId) with h | ⟨h', _⟩
      · exact h.trans h1
      · omega
    · rcases ps_count now today t notifs (⟨k, s.id⟩ : NotifId) with h | ⟨_, h1⟩
      · exact ih _ hmem (h.trans h0)
      · rcases scan_count now today rest (processSchedule now today t notifs).2
          (⟨k, s.id⟩ : NotifId) with h | ⟨h', _⟩
        · exact h.trans h1
        · omega

/-- After a scan in which schedule `s` (the unique holder of its id) falls
into the `auto_block` window with no prior `auto_block` notification, the
schedule with that id in the resulting list carries
`auto_block_triggered = true` (and `auto_block_time = now`). -/
theorem scan_triggered (now today : Int) (ss : List Schedule) (notifs : List Notification)
    (s : Schedule) (hnd : (ss.map Schedule.id).Nodup) (hs : s ∈ ss)
    (hb : branchKind now today s = some NotifKind.autoBlock)
    (h0 : countN notifs (⟨NotifKind.autoBlock, s.id⟩ : NotifId) = 0) :
    ∀ t' ∈ (scanAux now today ss notifs).1, t'.id = s.id → t' = updAB now s := by
  induction ss generalizing notifs with
  | nil => cases hs
  | cons t rest ih =>
    rw [List.map_cons, List.nodup_cons] at hnd
    intro t' ht' hid
    simp only [scanAux, List.mem_cons] at ht'
    rcases List.mem_cons.mp hs with heq | hmem
    · subst heq
      rcases ht' with h | h
      · have hd : notifs.any (fun n => n.id = (⟨NotifKind.autoBlock, s.id⟩ : NotifId)) = false :=
          (any_id_false_iff notifs _).mpr h0
        rw [ps_add now today s notifs _ hb hd] at h
        simpa using h
      · exfalso
        have : t'.id ∈ ((scanAux now today rest
            (processSchedule now today s notifs).2).1).map Schedule.id :=
          List.mem_map_of_mem Schedule.id h
        rw [scan_ids] at this
        exact hnd.1 (hid ▸ this)
    · have htid : t.id ≠ s.id := by
        intro hEq
        exact hnd.1 (hEq ▸ List.mem_map_of_mem Schedule.id hmem)
      rcases ht' with h | h
      · exfalso
        have : t'.id = t.id := h ▸ ps_id now today t notifs
        exact htid (this ▸ hid)
      · have h0' : countN (processSchedule now today t notifs).2
            (⟨NotifKind.autoBlock, s.id⟩ : NotifId) = 0 := by
          rw [ps_count_ne now today t notifs _ ?_]
          · exact h0
          · intro k _ hEq
            exact htid (congrArg NotifId.sid hEq)
        exact ih _ hnd.2 hmem h0' t' h hid

/-- If no schedule with id `i` falls into the `auto_block` window, every
schedule with id `i` comes out of the scan unchanged. -/
theorem scan_unchanged (now today : Int) (ss : List Schedule) (notifs : List Notification)
    (i : SchedId)
    (hno : ∀ u ∈ ss, u.id = i → branchKind now today u ≠ some NotifKind.autoBlock) :
    ∀ t' ∈ (scanAux now today ss notifs).1, t'.id = i → t' ∈ ss := by
  intro t' ht' hid
  obtain ⟨u, hu, hcase⟩ := scan_sched_cases now today ss notifs t' ht'
  rcases hcase with h | ⟨hb, h⟩
  · exact h ▸ hu
  · exfalso
    have huid : u.id = i := by
      have : t'.id = u.id := by rw [h]; rfl
      exact this ▸ hid
    exact hno u hu huid hb

theorem settled_append (now today : Int) (s : Schedule) (N M : List Notification)
    (h : settled now today s N) : settled now today s (N ++ M) := by
  intro k hk
  rw [List.any_append, h k hk, Bool.true_or]

theorem ps_of_settled (now today : Int) (s : Schedule) (N : List Notification)
    (h : settled now today s N) : processSchedule now today s N = (s, N) := by
  rw [processSchedule_eq]
  cases hb : branchKind now today s with
  | none => rfl
  | some k => simp [h k hb]

theorem ps_settles (now today : Int) (s : Schedule) (N : List Notification) :
    settled now today (processSchedule now today s N).1 (processSchedule now today s N).2 := by
  intro k hk
  rw [ps_branch_stable] at hk
  simp only [ps_id]
  by_cases hd : N.any (fun n => n.id = (⟨k, s.id⟩ : NotifId)) = true
  · rw [ps_dup now today s N k hk hd]
    exact hd
  · have hd' := eq_false_of_ne_true hd
    rw [ps_add now today s N k hk hd']
    simp [List.any_append, mkNotif_id]

theorem scan_settles (now today : Int) (ss : List Schedule) (N : List Notification) :
    ∀ t' ∈ (scanAux now today ss N).1, settled now today t' (scanAux now today ss N).2 := by
  induction ss generalizing N with
  | nil => intro t' h; cases h
  | cons s rest ih =>
    intro t' ht'
    simp only [scanAux, List.mem_cons] at ht' ⊢
    obtain ⟨t, ht⟩ := scan_notifs_append now today rest (processSchedule now today s N).2
    rcases ht' with h | h
    · rw [ht, h]
      exact settled_append now today _ _ t (ps_settles now today s N)
    · exact ih _ t' h

theorem scan_of_settled (now today : Int) (ss : List Schedule) (N : List Notification)
    (h : ∀ t ∈ ss, settled now today t N) : scanAux now today ss N = (ss, N) := by
  induction ss with
  | nil => rfl
  | cons s rest ih =>
    simp only [scanAux]
    rw [ps_of_settled now today s N (h s (List.mem_cons_self s rest))]
    rw [ih (fun t ht => h t (List.mem_cons_of_mem s ht))]

/-- A second scan at the same instant is the identity: every schedule is
settled after the first scan. -/
theorem scan_idem (now today : Int) (ss : List Schedule) (N : List Notification) :
    scanAux now today (scanAux now today ss N).1 (scanAux now today ss N).2 =
      ((scanAux now today ss N).1, (scanAux now today ss N).2) :=
  scan_of_settled now today _ _ (scan_settles now today ss N)

/-! ### Window characterizations -/

theorem tdMin_lt_neg10 (d t n : Int) :
    timeDiffMin d t n < -10 ↔ timeDiffSec d t n < -600 := by
  rw [timeDiffMin, div_lt_iff₀ (by norm_num : (0 : ℚ) < 60)]
  norm_num
  constructor <;> intro h <;> exact_mod_cast h

theorem neg10_lt_tdMin (d t n : Int) :
    -10 < timeDiffMin d t n ↔ -600 < timeDiffSec d t n := by
  rw [timeDiffMin, lt_div_iff₀ (by norm_num : (0 : ℚ) < 60)]
  norm_num
  constructor <;> intro h <;> exact_mod_cast h

theorem tdMin_lt_zero (d t n : Int) :
    timeDiffMin d t n < 0 ↔ timeDiffSec d t n < 0 := by
  rw [timeDiffMin, div_lt_iff₀ (by norm_num : (0 : ℚ) < 60)]
  norm_num

theorem branchKind_today (now today : Int) (s : Schedule)
    (hc : s.completed = false) (hdt : s.date = today) :
    branchKind now today s = classify (timeDiffSec s.date s.start_time now) s.started := by
  unfold branchKind
  simp [hc, hdt]

theorem classify_autoBlock_iff (tds : Int) (b : Bool) :
    classify tds b = some NotifKind.autoBlock ↔ (tds < -600 ∧ b = false) := by
  unfold classify
  split_ifs with h1 h2 h3 h4 h5 h6 <;> simp_all

theorem classify_started (tds : Int) :
    classify tds true = some NotifKind.warn10 ∨ classify tds true = some NotifKind.warn5 ∨
      classify tds true = none := by
  unfold classify
  split_ifs <;> simp_all

/-- C1.  For a schedule dated today with `started = false` and
`completed = false` and no prior `auto_block` notification: when `now` is
more than 10 minutes past its start (`time_diff < -10`), one evaluator
invocation triggers exactly one auto-block attempt — exactly one
`auto_block` notification exists afterwards and the schedule's
`auto_block_triggered` is set; when `now` is less than 10 minutes past the
start (`-10 < time_diff < 0`), no auto-block attempt is triggered — no
`auto_block` notification exists and the schedule is unchanged.  Moreover
the count stays exactly 1 under any further invocation. -/
theorem C1_auto_block_threshold (st : EvalState) (now : Int) (s : Schedule)
    (hs : s ∈ st.schedules)
    (hnd : (st.schedules.map Schedule.id).Nodup)
    (h0 : countN st.notifications (⟨NotifKind.autoBlock, s.id⟩ : NotifId) = 0)
    (hc : s.completed = false) (hst : s.started = false)
    (hd : s.date = Int.fdiv now 86400) :
    (timeDiffMin s.date s.start_time now < -10 →
      countN (check_enhanced_schedule_notifications st now).notifications
          (⟨NotifKind.autoBlock, s.id⟩ : NotifId) = 1 ∧
      (∀ t' ∈ (check_enhanced_schedule_notifications st now).schedules,
        t'.id = s.id → t'.auto_block_triggered = true) ∧
      (∀ now' : Int,
        countN (check_enhanced_schedule_notifications
            (check_enhanced_schedule_notifications st now) now').notifications
          (⟨NotifKind.autoBlock, s.id⟩ : NotifId) = 1)) ∧
    (-10 < timeDiffMin s.date s.start_time now ∧ timeDiffMin s.date s.start_time now < 0 →
      countN (check_enhanced_schedule_notifications st now).notifications
          (⟨NotifKind.autoBlock, s.id⟩ : NotifId) = 0 ∧
      (∀ t' ∈ (check_enhanced_schedule_notifications st now).schedules,
        t'.id = s.id → t' ∈ st.schedules)) := by
  constructor
  · intro hlt
    rw [tdMin_lt_neg10] at hlt
    have hb : branchKind now (Int.fdiv now 86400) s = some NotifKind.autoBlock := by
      rw [branchKind_today now _ s hc hd, hst, classify_autoBlock_iff]
      exact ⟨hlt, rfl⟩
    refine ⟨scan_count_eq_one now _ st.schedules st.notifications s _ hs hb h0, ?_, ?_⟩
    · intro t' ht' hid
      have := scan_triggered now _ st.schedules st.notifications s hnd hs hb h0 t' ht' hid
      rw [this]
      rfl
    · intro now'
      have h1 : countN (check_enhanced_schedule_notifications st now).notifications
          (⟨NotifKind.autoBlock, s.id⟩ : NotifId) = 1 :=
        scan_count_eq_one now _ st.schedules st.notifications s _ hs hb h0
      rcases scan_count now' (Int.fdiv now' 86400)
          (check_enhanced_schedule_notifications st now).schedules
          (check_enhanced_schedule_notifications st now).notifications
          (⟨NotifKind.autoBlock, s.id⟩ : NotifId) with h | ⟨hz, _⟩
      · exact h.trans h1
      · omega
  · rintro ⟨hgt, hlt0⟩
    rw [neg10_lt_tdMin] at hgt
    have hno : ∀ u ∈ st.schedules, u.id = s.id →
        branchKind now (Int.fdiv now 86400) u ≠ some NotifKind.autoBlock := by
      intro u hu huid hbu
      have hueq : u = s := List.inj_on_of_nodup_map hnd hu hs huid
      subst hueq
      rw [branchKind_today now _ u hc hd, hst, classify_autoBlock_iff] at hbu
      omega
    constructor
    · refine scan_count_zero now _ st.schedules st.notifications _ h0 ?_
      intro u hu k hbk hEq
      have hk : k = NotifKind.autoBlock := congrArg NotifId.kind hEq
      have huid : u.id = s.id := congrArg NotifId.sid hEq
      exact hno u hu huid (hk ▸ hbk)
    · exact scan_unchanged now _ st.schedules st.notifications s.id hno

/-- C1 witness: a schedule starting at second 3000 of day 0, evaluated at
`now = 3601` (10 minutes 1 second late), yields exactly one `auto_block`
notification. -/
theorem C1_auto_block_threshold_witness :
    countN (check_enhanced_schedule_notifications
        ⟨[{ id := ⟨0, 0⟩, title := "Study", date := 0, start_time := 3000,
            end_time := 6600 }], []⟩ 3601).notifications
      (⟨NotifKind.autoBlock, ⟨0, 0⟩⟩ : NotifId) = 1 :=
  ((C1_auto_block_threshold
      ⟨[{ id := ⟨0, 0⟩, title := "Study", date := 0, start_time := 3000,
          end_time := 6600 }], []⟩ 3601
      { id := ⟨0, 0⟩, title := "Study", date := 0, start_time := 3000, end_time := 6600 }
      (by decide) (by decide) (by decide) (by decide) (by decide) (by decide)).1
    (by rw [tdMin_lt_neg10]; decide)).1

/-- C2.  Evaluator invocations are idempotent at a fixed instant: a second
invocation changes nothing (in particular appends no duplicate
notification), and an invocation preserves the invariant that each
deterministic (schedule id, kind) notification id occurs at most once in
the notification list. -/
theorem C2_idempotent_emission (st : EvalState) (now : Int) :
    check_enhanced_schedule_notifications (check_enhanced_schedule_notifications st now) now =
      check_enhanced_schedule_notifications st now ∧
    ∀ nid : NotifId, countN st.notifications nid ≤ 1 →
      countN (check_enhanced_schedule_notifications st now).notifications nid ≤ 1 := by
  constructor
  · show EvalState.mk _ _ = _
    simp only [check_enhanced_schedule_notifications]
    rw [scan_idem]
  · intro nid h
    rcases scan_count now (Int.fdiv now 86400) st.schedules st.notifications nid with
      heq | ⟨_, hle⟩
    · show countN (scanAux now (Int.fdiv now 86400) st.schedules st.notifications).2 nid ≤ 1
      omega
    · exact hle

/-- C3.  While every schedule holding an id has `started = true`, an
evaluator invocation emits no `missed_5min`, `just_missed` or
`auto_block` (= `missed_10min`) notification for that id: every
notification the invocation adds for that schedule id is of some other
kind. -/
theorem C3_started_suppresses (st : EvalState) (now : Int) (i : SchedId)
    (hstart : ∀ t ∈ st.schedules, t.id = i → t.started = true) :
    ∀ n ∈ (check_enhanced_schedule_notifications st now).notifications,
      n ∉ st.notifications → n.schedule_id = i →
        n.kind ≠ NotifKind.autoBlock ∧ n.kind ≠ NotifKind.missed5 ∧
          n.kind ≠ NotifKind.justMissed := by
  intro n hn hnew hid
  rcases scan_new_mem now (Int.fdiv now 86400) st.schedules st.notifications n hn with
    h | ⟨s, hs, k, hb, he⟩
  · exact absurd h hnew
  · have hsid : n.schedule_id = s.id := by rw [he]; rfl
    have hstarted : s.started = true := hstart s hs (hsid ▸ hid)
    have hkind : n.kind = k := by rw [he]; rfl
    unfold branchKind at hb
    by_cases hc : s.completed = true
    · simp [hc] at hb
    · by_cases hdt : s.date ≠ Int.fdiv now 86400
      · simp [hc, hdt] at hb
      · simp only [hc, hdt, if_false, if_neg] at hb
        rw [hstarted] at hb
        rcases classify_started (timeDiffSec s.date s.start_time now) with h10 | h5 | hnone
        · rw [h10] at hb
          cases hb
          rw [hkind]
          refine ⟨?_, ?_, ?_⟩ <;> intro hAbs <;> cases hAbs
        · rw [h5] at hb
          cases hb
          rw [hkind]
          refine ⟨?_, ?_, ?_⟩ <;> intro hAbs <;> cases hAbs
        · rw [hnone] at hb
          cases hb

/-- C3 witness: the one notification a started schedule still gets (the
`10min_warning`) is none of the suppressed kinds. -/
theorem C3_started_suppresses_witness :
    warnNotif.kind ≠ NotifKind.autoBlock ∧ warnNotif.kind ≠ NotifKind.missed5 ∧
      warnNotif.kind ≠ NotifKind.justMissed :=
  C3_started_suppresses ⟨[schedStarted], []⟩ 2400 ⟨0, 0⟩ (by decide) warnNotif
    (List.Mem.head _) (by simp) rfl

/-- Membership in the conflict list, characterized. -/
theorem conflict_mem_iff (schedules : List Schedule) (ns ne nd : Int) (ex : Option SchedId)
    (s : Schedule) :
    s ∈ check_schedule_conflict schedules ns ne nd ex ↔
      (s ∈ schedules ∧ ex ≠ some s.id ∧ s.date = nd ∧ ns < s.end_time ∧
        s.start_time < ne) := by
  induction schedules with
  | nil => simp [check_schedule_conflict]
  | cons t rest ih =>
    by_cases hex : ex = some t.id
    · rw [check_schedule_conflict, if_pos hex, ih]
      constructor
      · rintro ⟨hm, h2, h3⟩
        exact ⟨List.mem_cons_of_mem t hm, h2, h3⟩
      · rintro ⟨hm, h2, h3⟩
        rcases List.mem_cons.mp hm with hst | hm'
        · exact absurd (by rw [hst]; exact hex) h2
        · exact ⟨hm', h2, h3⟩
    · by_cases hov : t.date = nd ∧ ns < t.end_time ∧ ne > t.start_time
      · rw [check_schedule_conflict, if_neg hex, if_pos hov]
        rw [List.mem_cons, ih, List.mem_cons]
        constructor
        · rintro (hst | ⟨hm, h2, h3⟩)
          · exact ⟨Or.inl hst, by rw [hst]; exact hex,
              by rw [hst]; exact hov.1, by rw [hst]; exact hov.2.1, by rw [hst]; exact hov.2.2⟩
          · exact ⟨Or.inr hm, h2, h3⟩
        · rintro ⟨hst | hm, h2, h3⟩
          · exact Or.inl hst
          · exact Or.inr ⟨hm, h2, h3⟩
      · rw [check_schedule_conflict, if_neg hex, if_neg hov, ih]
        constructor
        · rintro ⟨hm, h2, h3⟩
          exact ⟨List.mem_cons_of_mem t hm, h2, h3⟩
        · rintro ⟨hm, h2, h3, h4, h5⟩
          rcases List.mem_cons.mp hm with hst | hm'
          · refine absurd ⟨?_, ?_, ?_⟩ hov
            · rw [← hst]; exact h3
            · rw [← hst]; exact h4
            · rw [← hst]; exact h5
          · exact ⟨hm', h2, h3, h4, h5⟩

/-- C4.  The conflict check reports an existing schedule `u` against a
candidate interval `[s1, e1)` on date `d` iff `u` is on the same date and
`s1 < u.end_time ∧ u.start_time < e1`; in particular exactly-adjacent
intervals (`e1 = u.start_time`) are not reported, and any overlapping pair
is. -/
theorem C4_conflict_check (schedules : List Schedule) (s1 e1 d : Int)
    (u : Schedule) (hu : u ∈ schedules) :
    (u ∈ check_schedule_conflict schedules s1 e1 d none ↔
      (u.date = d ∧ s1 < u.end_time ∧ u.start_time < e1)) ∧
    (e1 = u.start_time → u ∉ check_schedule_conflict schedules s1 e1 d none) := by
  have hiff := conflict_mem_iff schedules s1 e1 d none u
  constructor
  · rw [hiff]
    constructor
    · rintro ⟨_, _, h3, h4, h5⟩
      exact ⟨h3, h4, h5⟩
    · rintro ⟨h3, h4, h5⟩
      exact ⟨hu, by simp, h3, h4, h5⟩
  · intro hadj hmem
    obtain ⟨_, _, _, _, h5⟩ := hiff.mp hmem
    omega

/-- C4 witness: against existing `A = [10:30, 11:30)`, the candidate
`[10:00, 11:00)` (`[36000, 39600)` in seconds) conflicts via the iff, and an
exactly-adjacent candidate is not reported. -/
theorem C4_conflict_check_witness :
    ((schedA ∈ check_schedule_conflict [schedA] 36000 39600 0 none ↔
      (schedA.date = 0 ∧ 36000 < schedA.end_time ∧ schedA.start_time < 39600)) ∧
      (39600 = schedA.start_time →
        schedA ∉ check_schedule_conflict [schedA] 36000 39600 0 none)) :=
  C4_conflict_check [schedA] 36000 39600 0 schedA (by decide)

/-- C5.  Under a nonempty title, a positive-length interval and a fresh
clock timestamp, the add flow fails (leaving the store untouched) exactly
when an existing same-date schedule overlaps, and otherwise appends one
record with `completed`, `started` and all notification / auto-block flags
false, returning an id distinct from every existing schedule's id. -/
theorem C5_add_flow (schedules : List Schedule) (nowTs : Int) (title descr : String)
    (d s1 e1 : Int) (cat prio : String)
    (htitle : title ≠ "") (htimes : s1 < e1)
    (hfresh : ∀ u ∈ schedules, u.id.ts ≠ nowTs) :
    ((∃ u ∈ schedules, u.date = d ∧ s1 < u.end_time ∧ u.start_time < e1) →
      submit_add_schedule schedules nowTs title descr d s1 e1 cat prio =
        (schedules,
          AddOutcome.conflict (check_schedule_conflict schedules s1 e1 d none))) ∧
    ((∀ u ∈ schedules, ¬(u.date = d ∧ s1 < u.end_time ∧ u.start_time < e1)) →
      submit_add_schedule schedules nowTs title descr d s1 e1 cat prio =
        (schedules ++ [{ id := ⟨schedules.length, nowTs⟩, title := title, descr := descr,
                         date := d, start_time := s1, end_time := e1, category := cat,
                         priority := prio, completed := false, started := false,
                         missed_notified := false, auto_block_triggered := false,
                         auto_blocked := false, auto_block_time := none,
                         created_at := nowTs }],
          AddOutcome.added ⟨schedules.length, nowTs⟩) ∧
      (⟨schedules.length, nowTs⟩ : SchedId) ∉ schedules.map Schedule.id) := by
  constructor
  · rintro ⟨u, hu, hcond⟩
    have hmem : u ∈ check_schedule_conflict schedules s1 e1 d none :=
      (conflict_mem_iff schedules s1 e1 d none u).mpr
        ⟨hu, by simp, hcond.1, hcond.2.1, hcond.2.2⟩
    have hne2 : check_schedule_conflict schedules s1 e1 d none ≠ [] :=
      List.ne_nil_of_mem hmem
    simp only [submit_add_schedule]
    rw [if_neg htitle, if_neg (not_le.mpr htimes), if_pos hne2]
  · intro hno
    have hnil : check_schedule_conflict schedules s1 e1 d none = [] := by
      rcases h : check_schedule_conflict schedules s1 e1 d none with _ | ⟨u, rest⟩
      · rfl
      · exfalso
        have hmem : u ∈ check_schedule_conflict schedules s1 e1 d none := by
          rw [h]; exact List.mem_cons_self u rest
        obtain ⟨hu, _, h3, h4, h5⟩ := (conflict_mem_iff schedules s1 e1 d none u).mp hmem
        exact hno u hu ⟨h3, h4, h5⟩
    refine ⟨?_, ?_⟩
    · simp only [submit_add_schedule]
      rw [if_neg htitle, if_neg (not_le.mpr htimes), hnil,
        if_neg (fun hc => hc rfl)]
      rfl
    · intro hmem
      rw [List.mem_map] at hmem
      obtain ⟨u, hu, hid⟩ := hmem
      exact hfresh u hu (congrArg SchedId.ts hid)

/-- C5 witness: adding `[6600, 7200)` exactly adjacent to an existing
`[3000, 6600)` on the same day succeeds, appending a record with all flags
false and a fresh id. -/
theorem C5_add_flow_witness :
    submit_add_schedule [schedB] 99 "B" "" 0 6600 7200 "Work" "Medium" =
      ([schedB, schedBnew], AddOutcome.added ⟨1, 99⟩) ∧
      (⟨1, 99⟩ : SchedId) ∉ ([schedB] : List Schedule).map Schedule.id :=
  (C5_add_flow [schedB] 99 "B" "" 0 6600 7200 "Work" "Medium"
    (by decide) (by decide) (by decide)).2 (by decide)

/-- C6 counterexample: running `handle_auto_blocking` without admin
privileges on a pending schedule does NOT leave the state unchanged — it
resets `auto_block_triggered` to `false`, so no later cycle retries. -/
theorem C6_counterexample :
    (handle_auto_blocking false false 0 [schedC]).1 ≠ [schedC] ∧
      (handle_auto_blocking false false 0 [schedC]).1.map
        (fun t => t.auto_block_triggered) = [false] := by
  constructor
  · decide
  · decide

/-- Every step of `handle_auto_blocking` conses one processed schedule. -/
theorem hab_shape (admin blockSuccess : Bool) (now : Int) (t : Schedule)
    (rest : List Schedule) :
    ∃ h', (handle_auto_blocking admin blockSuccess now (t :: rest)).1 =
      h' :: (handle_auto_blocking admin blockSuccess now rest).1 := by
  rw [handle_auto_blocking]
  split_ifs <;> exact ⟨_, rfl⟩

/-- Every step of `auto_block_for_missed_schedules` conses one processed
schedule. -/
theorem abfm_shape (admin blockSuccess : Bool) (t : Schedule) (rest : List Schedule) :
    ∃ h', (auto_block_for_missed_schedules admin blockSuccess (t :: rest)).1 =
      h' :: (auto_block_for_missed_schedules admin blockSuccess rest).1 := by
  rw [auto_block_for_missed_schedules]
  split_ifs <;> exact ⟨_, rfl⟩

theorem hab_mem_fail (admin blockSuccess : Bool) (now : Int) (ss : List Schedule)
    (s : Schedule) (hmem : s ∈ ss)
    (ht : s.auto_block_triggered = true) (hbl : s.auto_blocked = false)
    (hst : s.started = false) (hfail : admin = false ∨ blockSuccess = false) :
    ({ s with auto_block_triggered := false } : Schedule) ∈
      (handle_auto_blocking admin blockSuccess now ss).1 := by
  induction ss with
  | nil => cases hmem
  | cons t rest ih =>
    rcases List.mem_cons.mp hmem with heq | hmem'
    · subst heq
      rw [handle_auto_blocking]
      rw [if_pos ⟨ht, hbl⟩, if_neg (by rw [hst]; exact Bool.false_ne_true)]
      rcases hfail with ha | hbs
      · rw [if_pos ha]
        exact List.mem_cons_self _ _
      · by_cases ha : admin = false
        · rw [if_pos ha]
          exact List.mem_cons_self _ _
        · rw [if_neg ha, if_neg (by rw [hbs]; exact Bool.false_ne_true)]
          exact List.mem_cons_self _ _
    · obtain ⟨h', hsh⟩ := hab_shape admin blockSuccess now t rest
      rw [hsh]
      exact List.mem_cons_of_mem h' (ih hmem')

theorem abfm_mem_fail (admin blockSuccess : Bool) (ss : List Schedule)
    (s : Schedule) (hmem : s ∈ ss)
    (ht : s.auto_block_triggered = true) (hbl : s.auto_blocked = false)
    (hfail : admin = false ∨ blockSuccess = false) :
    ∃ t' ∈ (auto_block_for_missed_schedules admin blockSuccess ss).1,
      t'.id = s.id ∧ t'.auto_block_triggered = true ∧ t'.auto_blocked = false := by
  induction ss with
  | nil => cases hmem
  | cons t rest ih =>
    rcases List.mem_cons.mp hmem with heq | hmem'
    · subst heq
      rw [auto_block_for_missed_schedules]
      rw [if_pos ⟨ht, hbl⟩]
      rcases hfail with ha | hbs
      · rw [if_pos ha]
        exact ⟨{ s with auto_blocked := false }, List.mem_cons_self _ _, rfl, ht, rfl⟩
      · by_cases ha : admin = false
        · rw [if_pos ha]
          exact ⟨{ s with auto_blocked := false }, List.mem_cons_self _ _, rfl, ht, rfl⟩
        · rw [if_neg ha, if_neg (by rw [hbs]; exact Bool.false_ne_true)]
          exact ⟨s, List.mem_cons_self _ _, rfl, ht, hbl⟩
    · obtain ⟨h', hsh⟩ := abfm_shape admin blockSuccess t rest
      rw [hsh]
      obtain ⟨t', hmem'', hprop⟩ := ih hmem'
      exact ⟨t', List.mem_cons_of_mem h' hmem'', hprop⟩

/-- C6 (amended).  On collaborator failure (no admin privileges, or
`block_websites` reporting failure) over a pending, unstarted schedule:
`handle_auto_blocking` clears `auto_block_triggered` (abandoning the
retry), whereas `auto_block_for_missed_schedules` keeps
`auto_block_triggered = true` with `auto_blocked` still false, so a later
cycle retries the block. -/
theorem C6_failure_behavior (admin blockSuccess : Bool) (now : Int)
    (ss : List Schedule) (s : Schedule) (hmem : s ∈ ss)
    (ht : s.auto_block_triggered = true) (hbl : s.auto_blocked = false)
    (hst : s.started = false) (hfail : admin = false ∨ blockSuccess = false) :
    ({ s with auto_block_triggered := false } : Schedule) ∈
        (handle_auto_blocking admin blockSuccess now ss).1 ∧
      ∃ t' ∈ (auto_block_for_missed_schedules admin blockSuccess ss).1,
        t'.id = s.id ∧ t'.auto_block_triggered = true ∧ t'.auto_blocked = false :=
  ⟨hab_mem_fail admin blockSuccess now ss s hmem ht hbl hst hfail,
    abfm_mem_fail admin blockSuccess ss s hmem ht hbl hfail⟩

/-- C6 witness: the pending schedule `schedC` under a failing collaborator. -/
theorem C6_failure_behavior_witness :
    ({ schedC with auto_block_triggered := false } : Schedule) ∈
        (handle_auto_blocking false false 0 [schedC]).1 ∧
      ∃ t' ∈ (auto_block_for_missed_schedules false false [schedC]).1,
        t'.id = schedC.id ∧ t'.auto_block_triggered = true ∧ t'.auto_blocked = false :=
  C6_failure_behavior false false 0 [schedC] schedC (by decide) (by decide) (by decide)
    (by decide) (Or.inl rfl)

/-- C7 counterexample: completing `schedD` (with `auto_blocked = true`,
`auto_block_triggered = false`, blocking active, unblock succeeding) does
NOT reset `auto_blocked` to false — the clear-flags pass only touches
schedules with `auto_block_triggered` set. -/
theorem C7_counterexample :
    (complete_task true true [schedD] ⟨3, 0⟩).map
        (fun t => (t.completed, t.auto_block_triggered, t.auto_blocked)) =
      [(true, false, true)] := by
  decide

/-- C7 (amended).  Completing a schedule resets `auto_block_triggered` and
`auto_blocked` only when the completed schedule still has BOTH
`auto_block_triggered` and `auto_blocked` set, blocking is active, and the
unblock call succeeds; in that case the pass clears the flags on every
schedule whose `auto_block_triggered` is set — in particular, the result
list holds the completed schedule with both flags false, and every
schedule of the result has `auto_block_triggered = false`. -/
theorem C7_reset (ss : List Schedule) (sid : SchedId) (s : Schedule)
    (hfind : (update_schedule_completed ss sid).find? (fun t => t.id = sid) = some s)
    (htr : s.auto_block_triggered = true) (hbl : s.auto_blocked = true) :
    ({ s with auto_block_triggered := false, auto_blocked := false } : Schedule) ∈
        complete_task true true ss sid ∧
      ∀ t' ∈ complete_task true true ss sid, t'.auto_block_triggered = false := by
  have hme : complete_task true true ss sid =
      clearAutoBlockFlags (update_schedule_completed ss sid) := by
    simp only [complete_task]
    rw [hfind]
    simp [hbl]
  rw [hme]
  constructor
  · have hsmem : s ∈ update_schedule_completed ss sid := List.mem_of_find?_eq_some hfind
    have : (if s.auto_block_triggered = true then
        ({ s with auto_block_triggered := false, auto_blocked := false } : Schedule)
        else s) ∈ clearAutoBlockFlags (update_schedule_completed ss sid) :=
      List.mem_map_of_mem _ hsmem
    rw [if_pos htr] at this
    exact this
  · intro t' ht'
    rw [clearAutoBlockFlags, List.mem_map] at ht'
    obtain ⟨t, _, hteq⟩ := ht'
    by_cases htt : t.auto_block_triggered = true
    · rw [if_pos htt] at hteq
      rw [← hteq]
    · rw [if_neg htt] at hteq
      rw [← hteq]
      exact eq_false_of_ne_true htt

/-- C7 witness: completing `schedE` clears both flags. -/
theorem C7_reset_witness :
    ({ schedEdone with auto_block_triggered := false, auto_blocked := false } : Schedule) ∈
        complete_task true true [schedE] ⟨4, 0⟩ ∧
      ∀ t' ∈ complete_task true true [schedE] ⟨4, 0⟩,
        t'.auto_block_triggered = false :=
  C7_reset [schedE] ⟨4, 0⟩ schedEdone (by decide) (by decide) (by decide)

theorem insertByPriority_perm (n : PNotif) (l : List PNotif) :
    (insertByPriority n l).Perm (n :: l) := by
  induction l with
  | nil => exact List.Perm.refl _
  | cons m ms ih =>
    rw [insertByPriority]
    by_cases h : type_priority n.type ≤ type_priority m.type
    · rw [if_pos h]
    · rw [if_neg h]
      exact (List.Perm.cons m ih).trans (List.Perm.swap n m ms)

theorem sortNotifs_perm (l : List PNotif) : (sortNotifs l).Perm l := by
  induction l with
  | nil => exact List.Perm.refl _
  | cons n ns ih =>
    exact (insertByPriority_perm n (sortNotifs ns)).trans (List.Perm.cons n ih)

theorem insertByPriority_pairwise (n : PNotif) (l : List PNotif)
    (hl : l.Pairwise codeOrd)
    (hts : ∀ m ∈ l, type_priority n.type = type_priority m.type →
      n.timestamp ≤ m.timestamp) :
    (insertByPriority n l).Pairwise codeOrd := by
  induction l with
  | nil => exact List.pairwise_singleton _ _
  | cons m ms ih =>
    rw [insertByPriority]
    rw [List.pairwise_cons] at hl
    by_cases h : type_priority n.type ≤ type_priority m.type
    · rw [if_pos h]
      refine List.Pairwise.cons ?_ (List.Pairwise.cons hl.1 hl.2)
      intro x hx
      rcases List.mem_cons.mp hx with hxm | hxms
      · subst hxm
        rcases lt_or_eq_of_le h with hlt | heq
        · exact Or.inl hlt
        · exact Or.inr ⟨heq, hts x (List.mem_cons_self x ms) heq⟩
      · rcases hl.1 x hxms with hmx | ⟨hmx, _⟩
        · exact Or.inl (lt_of_le_of_lt h hmx)
        · rcases lt_or_eq_of_le h with hlt | heq
          · exact Or.inl (hmx ▸ hlt)
          · exact Or.inr ⟨heq.trans hmx,
              hts x (List.mem_cons_of_mem m hxms) (heq.trans hmx)⟩
    · rw [if_neg h]
      refine List.Pairwise.cons ?_ (ih hl.2 ?_)
      · intro x hx
        have hx' : x ∈ n :: ms := (insertByPriority_perm n ms).mem_iff.mp hx
        rcases List.mem_cons.mp hx' with hxn | hxms
        · subst hxn
          exact Or.inl (lt_of_not_le h)
        · exact hl.1 x hxms
      · intro x hx hpx
        exact hts x (List.mem_cons_of_mem m hx) hpx

/-- C8 (amended).  The display sort permutes the unread notifications into
the order `critical < warning < late < start < soon < upcoming` (six
distinct priority levels — `warning` strictly before `late`); within one
level (one `type`), input order is kept, hence timestamps ascend whenever
the input list is timestamp-ascending (as the append-only notification
list is). -/
theorem C8_sort_display (l : List PNotif)
    (hts : l.Pairwise (fun a b => a.timestamp ≤ b.timestamp)) :
    (sortNotifs l).Perm l ∧ (sortNotifs l).Pairwise codeOrd := by
  refine ⟨sortNotifs_perm l, ?_⟩
  induction l with
  | nil => exact List.Pairwise.nil
  | cons n ns ih =>
    rw [List.pairwise_cons] at hts
    exact insertByPriority_pairwise n (sortNotifs ns) (ih hts.2)
      (fun m hm _ => hts.1 m ((sortNotifs_perm ns).mem_iff.mp hm))

/-- C8 counterexample: the input `[late@0, warning@1]` is
timestamp-ascending; the claim (one `warning/late` tier, ties by timestamp
ascending) predicts `[late@0, warning@1]`, but the code sorts `warning`
(priority 1) strictly before `late` (priority 2). -/
theorem C8_counterexample :
    sortNotifs [⟨"late", 0⟩, ⟨"warning", 1⟩] = [⟨"warning", 1⟩, ⟨"late", 0⟩] ∧
      ¬ specOrdered (sortNotifs [⟨"late", 0⟩, ⟨"warning", 1⟩]) := by
  constructor
  · decide
  · intro h
    rw [show sortNotifs [⟨"late", 0⟩, ⟨"warning", 1⟩] =
        [⟨"warning", 1⟩, ⟨"late", 0⟩] from by decide] at h
    rw [specOrdered, List.pairwise_cons] at h
    rcases h.1 ⟨"late", 0⟩ (List.mem_singleton.mpr rfl) with hlt | ⟨_, hle⟩
    · simp [specTier] at hlt
    · exact absurd hle (by decide)

/-- C8 witness: the spec's own example — kinds
`[upcoming, critical, soon]` sort to `[critical, soon, upcoming]` — is a
run of the amended theorem (and evaluates accordingly). -/
theorem C8_sort_display_witness :
    (sortNotifs [⟨"upcoming", 0⟩, ⟨"critical", 1⟩, ⟨"soon", 2⟩]).Perm
        [⟨"upcoming", 0⟩, ⟨"critical", 1⟩, ⟨"soon", 2⟩] ∧
      (sortNotifs [⟨"upcoming", 0⟩, ⟨"critical", 1⟩, ⟨"soon", 2⟩]).Pairwise codeOrd :=
  C8_sort_display [⟨"upcoming", 0⟩, ⟨"critical", 1⟩, ⟨"soon", 2⟩]
    (by decide)

/-- The spec's example, evaluated: kinds `[upcoming, critical, soon]` sort
to `[critical, soon, upcoming]`. -/
theorem sortNotifs_example :
    sortNotifs [⟨"upcoming", 0⟩, ⟨"critical", 1⟩, ⟨"soon", 2⟩] =
      [⟨"critical", 1⟩, ⟨"soon", 2⟩, ⟨"upcoming", 0⟩] := by
  decide

theorem mkNotif_eq_mkNotifF (k : NotifKind) (s : Schedule) (now : Int) (td : ℚ) :
    mkNotif k s now td = mkNotifF k s.id s.title s.start_time now td := rfl

/-- On well-formed records the raw evaluator agrees with the total one. -/
theorem processRaw_toRaw (now today : Int) (s : Schedule) (notifs : List Notification) :
    processRawSchedule now today s.toRaw notifs =
      Except.ok ((processSchedule now today s notifs).1.toRaw,
        (processSchedule now today s notifs).2) := by
  rw [processRawSchedule, processSchedule]
  by_cases hc : s.completed = true
  · simp [Schedule.toRaw, hc]
  · have hcf : s.completed = false := eq_false_of_ne_true hc
    simp only [Schedule.toRaw, Option.getD_some, hc, Bool.false_eq_true, if_false, hcf]
    by_cases hdt : s.date ≠ today
    · simp [hdt, hcf]
    · simp only [hdt, if_false, if_neg hdt]
      cases hk : classify (timeDiffSec s.date s.start_time now) s.started with
      | none => simp [hcf]
      | some k =>
        simp only
        by_cases hd : notifs.any (fun n => n.id = (⟨k, s.id⟩ : NotifId)) = true
        · simp [hd, hcf]
        · rw [eq_false_of_ne_true hd]
          simp only [Bool.false_eq_true, if_false]
          by_cases hab : k = NotifKind.autoBlock
          · subst hab
            simp [updAB, Schedule.toRaw, mkNotif_eq_mkNotifF, hcf]
          · simp [hab, mkNotif_eq_mkNotifF, hcf]

/-- C9 counterexample: a batch holding a malformed record (missing `date`)
aborts with the `KeyError` instead of skipping it — the well-formed record
after it is never processed — while the same invocation over the
well-formed record alone creates its notification. -/
theorem C9_counterexample :
    check_notifications_raw 3601 0 [rawBad, rawGood] [] =
        Except.error "KeyError: date" ∧
      ∃ p, check_notifications_raw 3601 0 [rawGood] [] = Except.ok p ∧
        p.2.length = 1 := by
  refine ⟨rfl, ⟨_, rfl, rfl⟩⟩

/-- C9 (amended).  The evaluator does not skip malformed records: as soon
as the loop reaches a non-completed record with no `date` key, the whole
invocation aborts with `KeyError: date` — any records before it in the
list have been processed (the prefix ran to completion), and the records
after it are never examined (the abort is independent of what follows and
of the accumulated notifications). -/
theorem C9_malformed_aborts (now today : Int) (pre : List RawSchedule)
    (bad : RawSchedule) (post : List RawSchedule) (notifs : List Notification)
    (hc : bad.completed.getD false = false) (hdate : bad.date = none)
    (hpre : ∃ p, check_notifications_raw now today pre notifs = Except.ok p) :
    check_notifications_raw now today (pre ++ bad :: post) notifs =
      Except.error "KeyError: date" := by
  induction pre generalizing notifs with
  | nil =>
    rw [List.nil_append, check_notifications_raw]
    rw [processRawSchedule, if_neg (by rw [hc]; exact Bool.false_ne_true), hdate]
  | cons r pre' ih =>
    obtain ⟨p, hp⟩ := hpre
    rw [check_notifications_raw] at hp
    rw [List.cons_append, check_notifications_raw]
    cases hr : processRawSchedule now today r notifs with
    | error e =>
      rw [hr] at hp
      cases hp
    | ok p1 =>
      rw [hr] at hp
      simp only at hp ⊢
      cases hq : check_notifications_raw now today pre' p1.2 with
      | error e =>
        rw [hq] at hp
        cases hp
      | ok q =>
        rw [ih p1.2 ⟨q, hq⟩]

/-- C9 witness: prefix `[rawGood]` processes, then `rawBad` aborts the
batch; a trailing record is never reached. -/
theorem C9_malformed_aborts_witness :
    check_notifications_raw 3601 0 ([rawGood] ++ rawBad :: [rawGood]) [] =
      Except.error "KeyError: date" :=
  C9_malformed_aborts 3601 0 [rawGood] rawBad [rawGood] [] rfl rfl ⟨_, rfl⟩

theorem splitLinesAux_nil (acc : List Char) :
    splitLinesAux acc [] = if acc = [] then [] else [acc.reverse] := rfl

theorem splitLinesAux_cons (acc : List Char) (c : Char) (cs : List Char) :
    splitLinesAux acc (c :: cs) =
      if c = '\n' then (acc.reverse ++ ['\n']) :: splitLinesAux [] cs
      else splitLinesAux (c :: acc) cs := rfl

/-- `writelines ∘ readlines` is the identity on content. -/
theorem flatten_splitLinesAux (cs : List Char) :
    ∀ acc, (splitLinesAux acc cs).flatten = acc.reverse ++ cs := by
  induction cs with
  | nil =>
    intro acc
    by_cases h : acc = ([] : List Char)
    · subst h; simp [splitLinesAux_nil]
    · simp [splitLinesAux_nil, h]
  | cons c cs' ih =>
    intro acc
    rw [splitLinesAux_cons]
    by_cases hc : c = '\n'
    · subst hc
      simp [ih []]
    · rw [if_neg hc, ih (c :: acc)]
      simp

theorem flatten_splitLines (cs : List Char) : (splitLines cs).flatten = cs := by
  rw [splitLines, flatten_splitLinesAux]
  rfl

/-- Splitting distributes over an append at a newline boundary. -/
theorem splitLinesAux_append (cs : List Char) (h : cs.getLast? = some '\n') :
    ∀ acc b, splitLinesAux acc (cs ++ b) = splitLinesAux acc cs ++ splitLinesAux [] b := by
  induction cs with
  | nil => simp at h
  | cons c cs' ih =>
    intro acc b
    cases cs' with
    | nil =>
      have hc : c = '\n' := by simpa using h
      subst hc
      rw [List.cons_append, List.nil_append, splitLinesAux_cons, if_pos rfl,
        splitLinesAux_cons, if_pos rfl]
      rfl
    | cons d ds =>
      have h' : (d :: ds).getLast? = some '\n' := by
        rwa [List.getLast?_cons_cons] at h
      by_cases hc : c = '\n'
      · subst hc
        rw [List.cons_append, splitLinesAux_cons, if_pos rfl, splitLinesAux_cons,
          if_pos rfl, ih h' [] b, List.cons_append]
      · rw [List.cons_append, splitLinesAux_cons, if_neg hc, splitLinesAux_cons,
          if_neg hc, ih h' (c :: acc) b]

/-- Splitting a newline-free segment followed by a newline yields exactly
one line. -/
theorem splitLinesAux_line (l : List Char) (h : '\n' ∉ l) :
    ∀ acc rest, splitLinesAux acc (l ++ '\n' :: rest) =
      (acc.reverse ++ l ++ ['\n']) :: splitLinesAux [] rest := by
  induction l with
  | nil =>
    intro acc rest
    rw [List.nil_append, splitLinesAux_cons, if_pos rfl]
    simp
  | cons c l' ih =>
    intro acc rest
    have hc : ¬(c = '\n') := by
      intro hEq
      subst hEq
      exact h (List.mem_cons_self _ _)
    rw [List.cons_append, splitLinesAux_cons, if_neg hc,
      ih (fun hm => h (List.mem_cons_of_mem c hm)) (c :: acc) rest]
    congr 1
    simp

theorem removeBlock_keep (lines : List (List Char))
    (h : ∀ l ∈ lines, containsSub marker_start l = false ∧ containsSub marker_end l = false) :
    removeBlock false lines = lines := by
  induction lines with
  | nil => rfl
  | cons l rest ih =>
    rw [removeBlock]
    have hl := h l (List.mem_cons_self _ _)
    rw [hl.1, hl.2]
    simp only [Bool.false_eq_true, if_false]
    rw [ih (fun x hx => h x (List.mem_cons_of_mem l hx))]

theorem removeBlock_append (A B : List (List Char))
    (h : ∀ l ∈ A, containsSub marker_start l = false ∧ containsSub marker_end l = false) :
    removeBlock false (A ++ B) = A ++ removeBlock false B := by
  induction A with
  | nil => rfl
  | cons l A' ih =>
    rw [List.cons_append, removeBlock]
    have hl := h l (List.mem_cons_self _ _)
    rw [hl.1, hl.2]
    simp only [Bool.false_eq_true, if_false]
    rw [ih (fun x hx => h x (List.mem_cons_of_mem l hx)), List.cons_append]

/-- With `skip` on, every line up to and including the end-marker line is
dropped (lines containing the start marker merely keep `skip` on; inner
lines must not contain the end marker). -/
theorem removeBlock_inner (inner : List (List Char))
    (h : ∀ l ∈ inner, containsSub marker_end l = false) :
    removeBlock true (inner ++ [marker_end ++ ['\n']]) = [] := by
  induction inner with
  | nil =>
    rw [List.nil_append, removeBlock]
    rw [if_neg (by decide), if_pos (by decide)]
    rfl
  | cons l inner' ih =>
    rw [List.cons_append, removeBlock]
    have hl := h l (List.mem_cons_self _ _)
    have ih' := ih (fun x hx => h x (List.mem_cons_of_mem l hx))
    by_cases hs : containsSub marker_start l = true
    · rw [if_pos hs]
      exact ih'
    · rw [if_neg hs, hl]
      simp only [Bool.false_eq_true, if_false, if_pos rfl]
      exact ih'

/-- Consuming a newline-free segment only accumulates it. -/
theorem splitLinesAux_flat (l : List Char) (h : '\n' ∉ l) :
    ∀ acc rest, splitLinesAux acc (l ++ rest) = splitLinesAux (l.reverse ++ acc) rest := by
  induction l with
  | nil => intro acc rest; simp
  | cons c l' ih =>
    intro acc rest
    have hc : ¬(c = '\n') := by
      intro hEq
      subst hEq
      exact h (List.mem_cons_self _ _)
    rw [List.cons_append, splitLinesAux_cons, if_neg hc,
      ih (fun hm => h (List.mem_cons_of_mem c hm)) (c :: acc) rest]
    congr 1
    simp

/-- Splitting the per-site entry lines followed by a remainder. -/
theorem splitLinesAux_sites (sites : List (List Char))
    (hsites : ∀ site ∈ sites, '\n' ∉ site) (R : List Char) :
    splitLinesAux [] ((sites.map entryLine).flatten ++ R) =
      sites.map entryLine ++ splitLinesAux [] R := by
  induction sites with
  | nil => simp
  | cons site sites' ih =>
    simp only [List.map_cons, List.flatten_cons]
    rw [List.append_assoc]
    rw [show entryLine site ++ ((sites'.map entryLine).flatten ++ R) =
      ipPfx ++ (site ++ ('\n' :: ((sites'.map entryLine).flatten ++ R))) from by
        simp [entryLine]]
    rw [splitLinesAux_flat ipPfx (by decide)]
    rw [splitLinesAux_flat site (hsites site (List.mem_cons_self _ _))]
    rw [splitLinesAux_cons, if_pos rfl]
    rw [ih (fun x hx => hsites x (List.mem_cons_of_mem site hx))]
    rw [List.cons_append]
    congr 2
    simp [entryLine, List.reverse_append]

/-- `readlines` of the written blocking entries: a blank line, the start
marker line, the timestamp comment, one line per site, the end marker
line. -/
theorem splitLines_entries (ts : List Char) (sites : List (List Char))
    (hts : '\n' ∉ ts) (hsites : ∀ site ∈ sites, '\n' ∉ site) :
    splitLines ((blockingEntries ts sites).flatten) =
      ['\n'] :: (marker_start ++ ['\n']) :: headerLine ts ::
        (sites.map entryLine ++ [marker_end ++ ['\n']]) := by
  rw [splitLines, blockingEntries]
  rw [show (('\n' :: marker_start ++ ['\n']) :: headerLine ts ::
      (sites.map entryLine ++ [marker_end ++ ['\n']])).flatten =
    '\n' :: (marker_start ++ ('\n' :: (headerPfx ++ (ts ++ ('\n' ::
      ((sites.map entryLine).flatten ++ (marker_end ++ ['\n']))))))) from by
      simp [headerLine, List.append_assoc]]
  rw [splitLinesAux_cons, if_pos rfl]
  rw [splitLinesAux_flat marker_start (by decide)]
  rw [splitLinesAux_cons, if_pos rfl]
  rw [splitLinesAux_flat headerPfx (by decide)]
  rw [splitLinesAux_flat ts hts]
  rw [splitLinesAux_cons, if_pos rfl]
  rw [splitLinesAux_sites sites hsites]
  rw [show marker_end ++ ['\n'] = marker_end ++ ('\n' :: []) from rfl]
  rw [splitLinesAux_flat marker_end (by decide)]
  rw [splitLinesAux_cons, if_pos rfl]
  simp [headerLine, List.reverse_append, splitLinesAux_nil]

/-- `splitLines` distributes over the append of the blocking entries when
the original content is empty or newline-terminated. -/
theorem splitLines_append (hosts E : List Char)
    (hlast : hosts = [] ∨ hosts.getLast? = some '\n') :
    splitLines (hosts ++ E) = splitLines hosts ++ splitLines E := by
  rcases hlast with h | h
  · subst h; rfl
  · rw [splitLines, splitLinesAux_append hosts h [] E]
    rfl

/-- C10 (amended).  On marker-free hosts content whose lines are all
newline-terminated (or empty content), with admin privileges and I/O
succeeding, `block_websites` succeeds by appending the blocking entries,
and the following `unblock_websites` does NOT restore the file exactly: it
leaves the original content plus one extra blank line (the leading `'\n'`
embedded in `f'\n{marker_start}\n'` becomes its own line, which the
removal loop keeps). -/
theorem C10_block_unblock (hosts ts : List Char) (sites : List (List Char))
    (hts : '\n' ∉ ts) (hsites : ∀ site ∈ sites, '\n' ∉ site)
    (hmeh : containsSub marker_end (headerLine ts) = false)
    (hmes : ∀ site ∈ sites, containsSub marker_end (entryLine site) = false)
    (hlines : ∀ l ∈ splitLines hosts,
      containsSub marker_start l = false ∧ containsSub marker_end l = false)
    (hglob : containsSub marker_start hosts = false)
    (hlast : hosts = [] ∨ hosts.getLast? = some '\n') :
    block_websites true ts sites hosts =
        (true, hosts ++ (blockingEntries ts sites).flatten) ∧
      unblock_websites true (hosts ++ (blockingEntries ts sites).flatten) =
        (true, hosts ++ ['\n']) := by
  have hba : is_blocking_active hosts = false := by
    rw [is_blocking_active, flatten_splitLines]
    exact hglob
  constructor
  · rw [block_websites, if_neg (by simp), if_neg (by rw [hba]; simp)]
    rw [List.flatten_append, flatten_splitLines]
  · rw [unblock_websites, if_neg (by simp)]
    rw [splitLines_append hosts _ hlast, splitLines_entries ts sites hts hsites]
    rw [removeBlock_append _ _ hlines]
    rw [removeBlock, if_neg (by decide), if_neg (by decide), if_neg (by decide)]
    rw [removeBlock, if_pos (by decide)]
    rw [← List.cons_append]
    rw [removeBlock_inner (headerLine ts :: sites.map entryLine) ?_]
    · rw [List.flatten_append, flatten_splitLines]
      rfl
    · intro l hl
      rcases List.mem_cons.mp hl with h | h
      · rw [h]
        exact hmeh
      · rw [List.mem_map] at h
        obtain ⟨site, hsmem, hseq⟩ := h
        rw [← hseq]
        exact hmes site hsmem

/-- C10 counterexample: block-then-unblock on a marker-free hosts file is
NOT the identity — the round trip appends one blank line. -/
theorem C10_counterexample :
    (unblock_websites true (block_websites true tsFix sitesFix hostsFix).2).2 ≠ hostsFix ∧
      (unblock_websites true (block_websites true tsFix sitesFix hostsFix).2).2 =
        hostsFix ++ ['\n'] := by
  constructor
  · decide
  · decide

/-- C10 witness: the amended round-trip equation on the concrete
fixtures. -/
theorem C10_block_unblock_witness :
    block_websites true tsFix sitesFix hostsFix =
        (true, hostsFix ++ (blockingEntries tsFix sitesFix).flatten) ∧
      unblock_websites true (hostsFix ++ (blockingEntries tsFix sitesFix).flatten) =
        (true, hostsFix ++ ['\n']) :=
  C10_block_unblock hostsFix tsFix sitesFix (by decide) (by decide) (by decide)
    (by decide) (by decide) (by decide) (Or.inr (by decide))

end Perry
